import Mathlib

/-!
Verification development for the SimpleClaude repository (TypeScript).

The JSON-stream response parser (`ClaudeResponseParser`, `StreamingResponseParser`),
the rate limiter (`RateLimitStateImpl`), the retry-delay computation and the
session-update logic of `ClaudeAPI.execute` are shallowly embedded below.

Modelling conventions:
* JavaScript strings are `List Char` (`JStr`); `js` converts a Lean string literal.
* JSON values are the inductive `Json`; a missing object property (JS `undefined`)
  is `Option.none` at use sites.  `JSON.parse` is the JavaScript runtime, not
  repository code, so it enters the model as an explicit `decode` parameter.
* JavaScript numbers are modelled as rationals (`Rat`); the float artefacts
  (NaN, rounding) are outside the model.
* A thrown-and-caught `TypeError` (property access on `null`, `for..of` over a
  non-iterable) is modelled by `Option.none` in the classification helpers.
-/

namespace SimpleClaude

/-- JavaScript string: a list of characters. -/
abbrev JStr := List Char

/-- Conversion from a Lean string literal to a modelled JS string. -/
def js (s : String) : JStr := s.toList

/-- JSON value as produced by `JSON.parse`.  Object fields keep insertion order. -/
inductive Json where
  | null : Json
  | bool : Bool → Json
  | num : Rat → Json
  | str : JStr → Json
  | arr : List Json → Json
  | obj : List (JStr × Json) → Json

/-- Property read `j[k]`: `none` is JS `undefined`.  Only objects have own
properties; primitives and arrays yield `undefined` for the property names the
source reads.  (Reading a property of `null` throws; call sites that can see
`null` handle that case separately.) -/
def Json.get (j : Json) (k : JStr) : Option Json :=
  match j with
  | .obj fields => (fields.find? (fun p => p.1 = k)).map (·.2)
  | _ => none

/-- JS truthiness of a value. -/
def truthyJ : Json → Bool
  | .null => false
  | .bool b => b
  | .num q => q != 0
  | .str s => !s.isEmpty
  | .arr _ => true
  | .obj _ => true

/-- JS truthiness of a possibly-`undefined` value. -/
def truthy : Option Json → Bool
  | none => false
  | some j => truthyJ j

/-- The JS idiom `v || d`: the value if truthy, else the default. -/
def jsOr (v : Option Json) (d : Json) : Json :=
  match v with
  | some j => if truthyJ j then j else d
  | none => d

/-- The JS comparison `v === s` against a string literal. -/
def jsEqStr (v : Option Json) (s : JStr) : Bool :=
  match v with
  | some (.str t) => t = s
  | _ => false

/-- The JS test `typeof v === 'object'` (true for objects, arrays and `null`). -/
def typeofObject : Json → Bool
  | .null => true
  | .arr _ => true
  | .obj _ => true
  | _ => false

/-- Model of JS number-to-string conversion (exact formatting is a platform
detail never exercised by the claims). -/
def numToStr (q : Rat) : JStr := (toString q).toList

mutual

/-- Model of JS `String(v)` conversion. -/
def jsToString : Json → JStr
  | .str s => s
  | .null => js "null"
  | .bool b => js (if b then "true" else "false")
  | .num q => numToStr q
  | .arr l => jsToStringList l
  | .obj _ => js "[object Object]"

/-- Elements of an array joined with commas, as JS `String([..])` does. -/
def jsToStringList : List Json → JStr
  | [] => []
  | [x] => jsToString x
  | x :: xs => jsToString x ++ ',' :: jsToStringList xs

end

/-- The JS `for (const x of v)` element sequence: arrays iterate their
elements, strings iterate their characters (as one-character strings);
other values are not iterable — iterating them throws (`none`). -/
def iterElems : Json → Option (List Json)
  | .arr l => some l
  | .str s => some (s.map (fun c => .str [c]))
  | _ => none

/-- JS `String.prototype.trim` (ASCII whitespace model). -/
def trimChars (l : JStr) : JStr :=
  ((l.dropWhile Char.isWhitespace).reverse.dropWhile Char.isWhitespace).reverse

/-- A parsed tool result, from the `tool_result` branch of
`ClaudeResponseParser.parse_line` (`ToolResultContent` in models.ts).  The
`type` field is the constant `'tool_result'` and is omitted. -/
structure ToolResultContent where
  tool_use_id : Json
  content : JStr
  is_error : Json

/-- A parsed assistant response: the original `message` object (spread source
of the constructed `AssistantMessage`), the filtered content list, and the two
copied top-level fields. -/
structure AssistantResp where
  message : Json
  content : List Json
  parent_tool_use_id : Option Json
  session_id : Option Json

/-- A parsed user response, mirroring `UserResponse` in models.ts. -/
structure UserResp where
  message : Json
  content : List ToolResultContent
  parent_tool_use_id : Option Json
  session_id : Option Json

/-- One classified event, the non-null return values of `parse_line`. -/
inductive Event where
  | init (data : Json)
  | assistant (r : AssistantResp)
  | user (r : UserResp)
  | result (data : Json)

/-- Accumulated state of `ClaudeResponseParser`. -/
structure ParserState where
  system_init : Option Json := none
  assistant_responses : List AssistantResp := []
  user_responses : List UserResp := []
  result_summary : Option Json := none
  raw_lines : List JStr := []
  events : List Json := []

/-- The fresh parser produced by the `ClaudeResponseParser` constructor. -/
def initState : ParserState := {}

/-- Content filter of the assistant branch (parser lines 70–84): keep blocks
whose `type` is `text`, `thinking` or `tool_use`, skip other types with a
warning; reading `.type` of a `null` element throws (`none`). -/
def collectAssistant : List Json → Option (List Json)
  | [] => some []
  | c :: r =>
    match c with
    | .null => none
    | _ =>
      let ct := c.get (js "type")
      if jsEqStr ct (js "text") || jsEqStr ct (js "thinking") || jsEqStr ct (js "tool_use") then
        (collectAssistant r).map (c :: ·)
      else
        collectAssistant r

/-- Text extraction from a tool-result content array (parser lines 115–120):
keep `content_obj.text || ''` for elements that are objects with `type`
`'text'`; `typeof null === 'object'`, so a `null` element throws on the
subsequent `.type` read (`none`). -/
def collectTextParts : List Json → Option (List Json)
  | [] => some []
  | c :: r =>
    if typeofObject c then
      match c with
      | .null => none
      | _ =>
        if jsEqStr (c.get (js "type")) (js "text") then
          (collectTextParts r).map (jsOr (c.get (js "text")) (.str []) :: ·)
        else
          collectTextParts r
    else
      collectTextParts r

/-- The tool-result content flattening of parser lines 110–124: an array is
flattened to the concatenation of its text parts, any other value goes
through `String(...)`. -/
def flattenToolResult (content_field : Json) : Option JStr :=
  match content_field with
  | .arr l => (collectTextParts l).map (fun parts => (parts.map jsToString).foldr (· ++ ·) [])
  | _ => some (jsToString content_field)

/-- The user branch content loop (parser lines 107–135): build a
`ToolResultContent` for every `tool_result` block, skip other blocks;
a `null` element throws on the `.type` read (`none`). -/
def collectUser : List Json → Option (List ToolResultContent)
  | [] => some []
  | c :: r =>
    match c with
    | .null => none
    | _ =>
      if jsEqStr (c.get (js "type")) (js "tool_result") then
        match flattenToolResult (jsOr (c.get (js "content")) (.str [])) with
        | none => none
        | some text =>
          let tr : ToolResultContent :=
            { tool_use_id := jsOr (c.get (js "tool_use_id")) (.str [])
              content := text
              is_error := jsOr (c.get (js "is_error")) (.bool false) }
          (collectUser r).map (tr :: ·)
      else
        collectUser r

/-- Classification of a decoded line (parser lines 62–180), entered after the
raw line and the decoded object have been appended to the parser logs.  A
`TypeError` escaping a content loop is caught by the surrounding `try` and
yields `null` with the logs already extended. -/
def classify (st : ParserState) (data : Json) : ParserState × Option Event :=
  if jsEqStr (data.get (js "type")) (js "system") && jsEqStr (data.get (js "subtype")) (js "init") then
    ({ st with system_init := some data }, some (.init data))
  else if jsEqStr (data.get (js "type")) (js "assistant") then
    let message_data := jsOr (data.get (js "message")) (.obj [])
    match iterElems (jsOr (message_data.get (js "content")) (.arr [])) with
    | none => (st, none)
    | some elems =>
      match collectAssistant elems with
      | none => (st, none)
      | some content_list =>
        let resp : AssistantResp :=
          { message := message_data
            content := content_list
            parent_tool_use_id := data.get (js "parent_tool_use_id")
            session_id := data.get (js "session_id") }
        ({ st with assistant_responses := st.assistant_responses ++ [resp] }, some (.assistant resp))
  else if jsEqStr (data.get (js "type")) (js "user") then
    let message_data := jsOr (data.get (js "message")) (.obj [])
    match iterElems (jsOr (message_data.get (js "content")) (.arr [])) with
    | none => (st, none)
    | some elems =>
      match collectUser elems with
      | none => (st, none)
      | some content_list =>
        let resp : UserResp :=
          { message := message_data
            content := content_list
            parent_tool_use_id := data.get (js "parent_tool_use_id")
            session_id := data.get (js "session_id") }
        ({ st with user_responses := st.user_responses ++ [resp] }, some (.user resp))
  else if jsEqStr (data.get (js "type")) (js "result") then
    ({ st with result_summary := some data }, some (.result data))
  else
    (st, none)

/-- Model of `ClaudeResponseParser.parse_line` (parser lines 39–181).
`decode` models `JSON.parse`: `none` is a thrown `SyntaxError`, caught by the
`try`/`catch` with no state change (the log pushes come after the parse). -/
def parse_line (decode : JStr → Option Json) (st : ParserState) (line : JStr) :
    ParserState × Option Event :=
  let cleanLine := trimChars line
  if cleanLine.isEmpty then (st, none)
  else if cleanLine.head? ≠ some '{' then (st, none)
  else if cleanLine.getLast? ≠ some '}' then (st, none)
  else
    match decode cleanLine with
    | none => (st, none)
    | some data =>
      classify
        { st with raw_lines := st.raw_lines ++ [cleanLine], events := st.events ++ [data] }
        data

/-- Model of `ClaudeResponseParser.was_successful` (parser lines 256–262). -/
def was_successful (st : ParserState) : Bool :=
  match st.result_summary with
  | none => false
  | some rs => !truthy (rs.get (js "is_error")) && jsEqStr (rs.get (js "subtype")) (js "success")

/-- Model of `ClaudeResponseParser.get_cost` (parser lines 252–254): the JS
expression `this.result_summary?.total_cost_usd || null`; `none` models the
returned `null`. -/
def get_cost (st : ParserState) : Option Json :=
  match st.result_summary with
  | none => none
  | some rs =>
    let v := rs.get (js "total_cost_usd")
    if truthy v then v else none

/-- The JS split `stream.split('\n')`: one entry per line, the separator is
consumed; always nonempty (splitting the empty string gives `[[]]`). -/
def splitOnNl : JStr → List JStr
  | [] => [[]]
  | c :: r =>
    if c = '\n' then [] :: splitOnNl r
    else
      match splitOnNl r with
      | [] => [[c]]
      | l :: ls => (c :: l) :: ls

/-- The loop of `ClaudeResponseParser.parse_stream` (parser lines 186–188):
`parse_line` on each line in order; also collects the sequence of classified
events (the non-null `parse_line` returns) that the loop produces. -/
def parseLines (decode : JStr → Option Json) : ParserState → List JStr → ParserState × List Event
  | st, [] => (st, [])
  | st, l :: ls =>
    let (st', e) := parse_line decode st l
    let (st'', es) := parseLines decode st' ls
    (st'', e.toList ++ es)

/-- The aggregate `ClaudeResponse` built by `parse_stream` /
`StreamingResponseParser.get_response`. -/
structure ClaudeResp where
  system_init : Option Json := none
  assistant_responses : List AssistantResp := []
  user_responses : List UserResp := []
  result_summary : Option Json := none
  raw_response : JStr := []

/-- Model of `ClaudeResponseParser.parse_stream` (parser lines 183–198): trim
the stream, split on newlines, `parse_line` each line, then copy the
accumulated fields; the returned pair also exposes the mutated parser. -/
def parse_stream (decode : JStr → Option Json) (st : ParserState) (stream : JStr) :
    ClaudeResp × ParserState :=
  let (st', _) := parseLines decode st (splitOnNl (trimChars stream))
  ({ system_init := st'.system_init
     assistant_responses := st'.assistant_responses
     user_responses := st'.user_responses
     result_summary := st'.result_summary
     raw_response := stream }, st')

/-- The ordered sequence of classified events that `parse_stream` produces on
a fresh parser when it parses the stream line by line. -/
def parse_stream_events (decode : JStr → Option Json) (stream : JStr) : List Event :=
  (parseLines decode initState (splitOnNl (trimChars stream))).2

/-- One item yielded by the streaming generator: a raw line string in
`yield_raw` mode, else a classified event. -/
inductive StreamItem where
  | raw (s : JStr)
  | ev (e : Event)

/-- State of `StreamingResponseParser`: the pending-text buffer and the owned
line parser. -/
structure SPState where
  buffer : JStr := []
  parser : ParserState := initState

/-- The per-line dispatch shared by `parse_chunk` (parser lines 289–301) and
`flush` (parser lines 306–316): if the trimmed line is nonempty and starts
with `{`, yield it raw or hand it to `parse_line` and yield a non-null
result. -/
def dispatchLine (decode : JStr → Option Json) (yield_raw : Bool) (p : ParserState)
    (cleanLine : JStr) : ParserState × List StreamItem :=
  if cleanLine.isEmpty = false ∧ cleanLine.head? = some '{' then
    if yield_raw then (p, [.raw cleanLine])
    else
      match parse_line decode p cleanLine with
      | (p', some e) => (p', [.ev e])
      | (p', none) => (p', [])
  else (p, [])

/-- One bounded unfolding of the `while (this.buffer.includes('\n'))` loop of
`StreamingResponseParser.parse_chunk` (parser lines 284–302): repeatedly cut
the buffer at the first newline and dispatch the extracted line.  Every
iteration consumes at least the newline itself, so `fuel := buffer.length`
bounds the iteration count. -/
def drainGo (decode : JStr → Option Json) (yield_raw : Bool) :
    Nat → SPState → SPState × List StreamItem
  | 0, sp => (sp, [])
  | fuel + 1, sp =>
    if '\n' ∈ sp.buffer then
      let line := sp.buffer.takeWhile (· ≠ '\n')
      let rest := (sp.buffer.dropWhile (· ≠ '\n')).tail
      let (p', items) := dispatchLine decode yield_raw sp.parser (trimChars line)
      let (sp', items') := drainGo decode yield_raw fuel { buffer := rest, parser := p' }
      (sp', items ++ items')
    else (sp, [])

/-- The full `while` loop of `parse_chunk`: run `drainGo` with enough fuel to
exhaust every newline in the buffer. -/
def drainBuffer (decode : JStr → Option Json) (yield_raw : Bool) (sp : SPState) :
    SPState × List StreamItem :=
  drainGo decode yield_raw sp.buffer.length sp

/-- Model of `StreamingResponseParser.parse_chunk` (parser lines 281–303):
append the chunk to the buffer, then drain every complete line. -/
def parse_chunk (decode : JStr → Option Json) (yield_raw : Bool) (sp : SPState)
    (chunk : JStr) : SPState × List StreamItem :=
  drainBuffer decode yield_raw { sp with buffer := sp.buffer ++ chunk }

/-- Model of `StreamingResponseParser.flush` (parser lines 305–318): dispatch
the trimmed remaining buffer, then clear the buffer. -/
def flush (decode : JStr → Option Json) (yield_raw : Bool) (sp : SPState) :
    SPState × List StreamItem :=
  let (p', items) := dispatchLine decode yield_raw sp.parser (trimChars sp.buffer)
  ({ buffer := [], parser := p' }, items)

/-- Feeding a sequence of chunks through `parse_chunk` in order, collecting
the yielded items. -/
def runChunks (decode : JStr → Option Json) (yield_raw : Bool) :
    SPState → List JStr → SPState × List StreamItem
  | sp, [] => (sp, [])
  | sp, c :: cs =>
    let (sp', items) := parse_chunk decode yield_raw sp c
    let (sp'', items') := runChunks decode yield_raw sp' cs
    (sp'', items ++ items')

/-- A whole streaming run on a fresh `StreamingResponseParser`: every chunk
through `parse_chunk`, then one `flush` (the pattern of
`stream_parse_generator`, parser lines 339–351). -/
def runStreaming (decode : JStr → Option Json) (yield_raw : Bool) (chunks : List JStr) :
    SPState × List StreamItem :=
  let (sp, items) := runChunks decode yield_raw { buffer := [], parser := initState } chunks
  let (sp', items') := flush decode yield_raw sp
  (sp', items ++ items')

/-- Rate-limit configuration (models.ts lines 152–157). -/
structure RateLimitConfig where
  requests_per_minute : Nat
  requests_per_hour : Nat
  burst_size : Nat := 10
  enabled : Bool := true

/-- Mutable state of `RateLimitStateImpl` (models.ts lines 264–269); times
are Unix milliseconds as returned by `Date.getTime()`. -/
structure RateLimitState where
  requests_this_minute : Nat := 0
  requests_this_hour : Nat := 0
  minute_reset_time : Int
  hour_reset_time : Int
  last_request_time : Option Int := none

/-- Model of `RateLimitStateImpl.should_delay` (models.ts lines 271–297);
`now` is the value of `new Date()` at the call, the result carries the
mutated state, the delay flag and the delay in seconds. -/
def should_delay (st : RateLimitState) (config : RateLimitConfig) (now : Int) :
    RateLimitState × Bool × Rat :=
  let st1 :=
    if now - st.minute_reset_time ≥ 60000 then
      { st with requests_this_minute := 0, minute_reset_time := now }
    else st
  let st2 :=
    if now - st1.hour_reset_time ≥ 3600000 then
      { st1 with requests_this_hour := 0, hour_reset_time := now }
    else st1
  if st2.requests_this_minute ≥ config.requests_per_minute then
    (st2, true, max 0 (60 - ((now - st2.minute_reset_time : Rat) / 1000)))
  else if st2.requests_this_hour ≥ config.requests_per_hour then
    (st2, true, max 0 (3600 - ((now - st2.hour_reset_time : Rat) / 1000)))
  else (st2, false, 0)

/-- Model of `RateLimitStateImpl.record_request` (models.ts lines 299–304). -/
def record_request (st : RateLimitState) (now : Int) : RateLimitState :=
  { st with
      requests_this_minute := st.requests_this_minute + 1
      requests_this_hour := st.requests_this_hour + 1
      last_request_time := some now }

/-- Retry configuration (models.ts lines 144–150); numeric fields as exact
rationals. -/
structure RetryConfig where
  max_retries : Nat := 3
  initial_delay : Rat := 1
  max_delay : Rat := 60
  exponential_base : Rat := 2

/-- Model of `ClaudeAPI._calculate_retry_delay` (api.ts lines 162–168). -/
def calculate_retry_delay (config : RetryConfig) (attempt : Nat) : Rat :=
  min (config.initial_delay * config.exponential_base ^ attempt) config.max_delay

/-- Result of one `_run_command` attempt inside `ClaudeAPI.execute`: success,
or a thrown error whose class is / is not in the configured retry list. -/
inductive AttemptResult where
  | success
  | failure (retryable : Bool)

/-- Observable actions of the execution controller, in program order. -/
inductive Step where
  | checkRateLimit
  | runCommand (ok : Bool)
  | recordRequest
  | backoffSleep
  | spawnProcess
deriving DecidableEq

/-- The retry loop of `ClaudeAPI.execute` (api.ts lines 221–267) as an action
trace: per attempt, check the rate limit, run the command; on success record
the request (only when a rate limiter exists) and return; on a retryable
failure below the retry ceiling, sleep and continue; `outcome n` is the
result of attempt `n`, `fuel` bounds the remaining loop iterations. -/
def executeGo (rl_enabled : Bool) (max_retries : Nat) (outcome : Nat → AttemptResult) :
    Nat → Nat → List Step
  | 0, _ => []
  | fuel + 1, attempt =>
    Step.checkRateLimit ::
      match outcome attempt with
      | .success => Step.runCommand true :: (if rl_enabled then [Step.recordRequest] else [])
      | .failure r =>
        Step.runCommand false ::
          (if r ∧ attempt < max_retries then
            Step.backoffSleep :: executeGo rl_enabled max_retries outcome fuel (attempt + 1)
          else [])

/-- The full action trace of one `ClaudeAPI.execute` call: attempts `0` to
`max_retries`. -/
def executeTrace (rl_enabled : Bool) (max_retries : Nat) (outcome : Nat → AttemptResult) :
    List Step :=
  executeGo rl_enabled max_retries outcome (max_retries + 1) 0

/-- The opening actions of `ClaudeAPI.execute_stream` (api.ts lines 272–292):
rate-limit check, process spawn, then — if a rate limiter exists — one
`record_request`, all before any command outcome is observable. -/
def execute_stream_prefix (rl_enabled : Bool) : List Step :=
  Step.checkRateLimit :: Step.spawnProcess ::
    (if rl_enabled then [Step.recordRequest] else [])

/-- Session state (models.ts `SessionImpl`, lines 223–254); timestamps are
Unix milliseconds. -/
structure Session where
  session_id : Option Json := none
  message_history : List (AssistantResp ⊕ UserResp) := []
  total_tokens : Rat := 0
  total_cost : Rat := 0
  last_activity : Int := 0

/-- Numeric read of a JSON field for the `+=` accumulations (JS arithmetic on
non-numbers is a float artefact outside the model). -/
def asNum (v : Option Json) : Rat :=
  match v with
  | some (.num q) => q
  | _ => 0

/-- Model of `SessionImpl.add_response` (models.ts lines 232–240). -/
def add_response (s : Session) (r : AssistantResp ⊕ UserResp) (now : Int) : Session :=
  let s' := { s with message_history := s.message_history ++ [r], last_activity := now }
  match r with
  | .inl a =>
    match a.message.get (js "usage") with
    | some u =>
      if truthyJ u then
        { s' with total_tokens :=
            s'.total_tokens + asNum (u.get (js "input_tokens")) + asNum (u.get (js "output_tokens")) }
      else s'
    | none => s'
  | .inr _ => s'

/-- The session-update block of `ClaudeAPI.execute` (api.ts lines 238–249),
entered on a successful completion with a session attached: if a
`SystemInit` is present, set the session identifier from it, append every
assistant and user response, and accumulate the result cost. -/
def updateSessionOnExecute (s : Session) (response : ClaudeResp) (now : Int) : Session :=
  match response.system_init with
  | none => s
  | some si =>
    if truthyJ si then
      let s1 := { s with session_id := si.get (js "session_id") }
      let s2 := response.assistant_responses.foldl (fun acc a => add_response acc (.inl a) now) s1
      let s3 := response.user_responses.foldl (fun acc u => add_response acc (.inr u) now) s2
      match response.result_summary with
      | none => s3
      | some rs => { s3 with total_cost := s3.total_cost + asNum (rs.get (js "total_cost_usd")) }
    else s

/-- A user message object carrying exactly one `tool_result` block with the
given `tool_use_id` and raw content (input family for the flattening claim). -/
def mkUserMessage (tu cf : Json) : Json :=
  .obj [(js "role", .str (js "user")),
        (js "content", .arr
          [.obj [(js "type", .str (js "tool_result")),
                 (js "tool_use_id", tu),
                 (js "content", cf)]])]

/-- A user-type stream line around `mkUserMessage`. -/
def mkUserLine (tu cf : Json) : Json :=
  .obj [(js "type", .str (js "user")), (js "message", mkUserMessage tu cf)]

/-- The tool result that the user branch derives from a `tool_result` block
with the given `tool_use_id` and flattened text. -/
def mkToolResult (tu : Json) (text : JStr) : ToolResultContent :=
  { tool_use_id := jsOr (some tu) (Json.str [])
    content := text
    is_error := Json.bool false }

/-- The user response that `parse_line` appends for `mkUserLine tu cf` when
the block's content flattens to `text`. -/
def mkUserResp (tu cf : Json) (text : JStr) : UserResp :=
  { message := mkUserMessage tu cf
    content := [mkToolResult tu text]
    parent_tool_use_id := none
    session_id := none }

/-- Spec-side flattening rule, stated from the claim's words: a single string
verbatim; an array flattened to the in-order, no-separator concatenation of
the `text` of blocks whose type is `text`, ignoring non-text blocks. -/
def spec_flatten_tool_result (content_field : Json) : Option JStr :=
  match content_field with
  | .str s => some s
  | .arr l =>
    some ((l.map (fun b =>
      if jsEqStr (b.get (js "type")) (js "text") then
        match b.get (js "text") with
        | some (.str t) => t
        | _ => []
      else [])).foldr (· ++ ·) [])
  | _ => none

/-- A content block the flattening claim quantifies over: not `null` (a
`null` in a content array makes the source throw and reject the line), and
if it is a text block its `text` field is a string. -/
def GoodBlock (b : Json) : Prop :=
  b ≠ Json.null ∧
    (jsEqStr (b.get (js "type")) (js "text") = true → ∃ t, b.get (js "text") = some (Json.str t))

/-- The last component of the newline split of a stream: the text after the
final newline (the whole stream when it has none). -/
def lastLine (s : JStr) : JStr := (splitOnNl s).getLastD []

/-- The streaming dispatch applied to a list of already-extracted lines in
order (each line trimmed, then filtered and parsed as in `parse_chunk`). -/
def dispatchLines (decode : JStr → Option Json) (yield_raw : Bool) :
    ParserState → List JStr → ParserState × List StreamItem
  | p, [] => (p, [])
  | p, l :: ls =>
    let (p', items) := dispatchLine decode yield_raw p (trimChars l)
    let (p'', items') := dispatchLines decode yield_raw p' ls
    (p'', items ++ items')

/-- Checks that every `recordRequest` in a trace immediately follows a
successful `runCommand` (recording happens right after the command returns,
and only then). -/
def recordsFollowSuccess : List Step → Bool
  | [] => true
  | Step.runCommand true :: Step.recordRequest :: rest => recordsFollowSuccess rest
  | Step.recordRequest :: _ => false
  | _ :: rest => recordsFollowSuccess rest

/-- Concrete result line with no `is_error` and no numeric fields. -/
def resultLineNoError : JStr := js "\x7b\"type\":\"result\",\"subtype\":\"success\"\x7d"

/-- The decoded object of `resultLineNoError`. -/
def resultJsonNoError : Json :=
  .obj [(js "type", .str (js "result")), (js "subtype", .str (js "success"))]

/-- A decode oracle defined at exactly the line `resultLineNoError`. -/
def decodeResultNoError : JStr → Option Json :=
  fun l => if l = resultLineNoError then some resultJsonNoError else none

/-- Parser state holding a result summary whose `total_cost_usd` is zero. -/
def stCostZero : ParserState :=
  { initState with result_summary := some (.obj [(js "total_cost_usd", .num 0)]) }

/-- Parser state holding a result summary whose `total_cost_usd` is `0.01`. -/
def stCostPos : ParserState :=
  { initState with result_summary := some (.obj [(js "total_cost_usd", .num (1 / 100))]) }

/-- Rate-limit state with both window counters at 2 and both windows started
at time 0. -/
def rlStateFull : RateLimitState :=
  { requests_this_minute := 2, requests_this_hour := 2
    minute_reset_time := 0, hour_reset_time := 0 }

/-- Rate-limit config with a ceiling of 2 requests per minute and 2 per hour. -/
def rlCfgTwo : RateLimitConfig := { requests_per_minute := 2, requests_per_hour := 2 }

/-- Rate-limit state with 2 requests in a minute window started at time 0 and
an idle hour window. -/
def rlStateMinuteFull : RateLimitState :=
  { requests_this_minute := 2, requests_this_hour := 2
    minute_reset_time := 0, hour_reset_time := 0 }

/-- Rate-limit config with a ceiling of 2 per minute and a high hour ceiling. -/
def rlCfgSpec : RateLimitConfig := { requests_per_minute := 2, requests_per_hour := 1000 }

/-- Attempt oracle: the first attempt throws a retryable error, every later
attempt succeeds. -/
def outcomeFailThenOk : Nat → AttemptResult :=
  fun n => if n = 0 then .failure true else .success

/-- A session that already holds the identifier `"old"` from a previous run. -/
def sessOld : Session := { session_id := some (.str (js "old")) }

/-- A `SystemInit` object carrying the identifier `"new"`. -/
def siNew : Json := .obj [(js "session_id", .str (js "new"))]

/-- A run response whose only event is `siNew`. -/
def respNew : ClaudeResp := { system_init := some siNew }

/-- The claim's example content array:
`[{"type":"text","text":"a"},{"type":"text","text":"b"},{"type":"other"}]`. -/
def blocksAB : List Json :=
  [.obj [(js "type", .str (js "text")), (js "text", .str (js "a"))],
   .obj [(js "type", .str (js "text")), (js "text", .str (js "b"))],
   .obj [(js "type", .str (js "other"))]]

/-- The example tool-use identifier. -/
def tuExample : Json := .str (js "t1")

/-- A concrete user-type line for the flattening claim's array example. -/
def userLineAB : JStr :=
  js "\x7b\"type\":\"user\",\"message\":\x7b\"role\":\"user\",\"content\":[\x7b\"type\":\"tool_result\",\"tool_use_id\":\"t1\",\"content\":[\x7b\"type\":\"text\",\"text\":\"a\"\x7d,\x7b\"type\":\"text\",\"text\":\"b\"\x7d,\x7b\"type\":\"other\"\x7d]\x7d]\x7d\x7d"

/-- A decode oracle defined at exactly `userLineAB`. -/
def decodeUserAB : JStr → Option Json :=
  fun l => if l = userLineAB then some (mkUserLine tuExample (.arr blocksAB)) else none

theorem jsEqStr_eq_true_iff (v : Option Json) (s : JStr) :
    jsEqStr v s = true ↔ v = some (Json.str s) := by
  cases v with
  | none => simp [jsEqStr]
  | some j => cases j <;> simp [jsEqStr]

/-- C2: a blank line, the line `not json`, and the truncated line
`{"type":"assistant"` are each rejected with a `null` result and an
unchanged parser state, for every decode oracle and every parser state; a
subsequent line therefore parses exactly as it would have without the
rejected line. -/
theorem c2_rejection_silent (decode : JStr → Option Json) (st : ParserState) :
    parse_line decode st (js "") = (st, none) ∧
    parse_line decode st (js "not json") = (st, none) ∧
    parse_line decode st (js "\x7b\"type\":\"assistant\"") = (st, none) ∧
    (∀ line, parse_line decode (parse_line decode st (js "not json")).1 line
        = parse_line decode st line) :=
  ⟨rfl, rfl, rfl, fun _ => rfl⟩

/-- C4: the claimed fail-safe defaults are not applied.  On the result line
`{"type":"result","subtype":"success"}` (no `is_error`, no numeric fields)
the parser stores the raw object unchanged — the missing fields stay absent
instead of defaulting (`is_error` to true, numerics to zero) — and
`was_successful` then reports success for this field-missing result. -/
theorem c4_missing_fields_reported_success :
    (parse_line decodeResultNoError initState resultLineNoError).1.result_summary
        = some resultJsonNoError ∧
    resultJsonNoError.get (js "is_error") = none ∧
    resultJsonNoError.get (js "duration_ms") = none ∧
    resultJsonNoError.get (js "total_cost_usd") = none ∧
    was_successful (parse_line decodeResultNoError initState resultLineNoError).1 = true :=
  ⟨rfl, rfl, rfl, rfl, rfl⟩

/-- C5: `was_successful` returns true exactly when a result summary is
present, its `is_error` field is false (as the JS negation `!is_error`
evaluates it), and its `subtype` equals `"success"`; every other combination
yields false. -/
theorem c5_success_predicate (st : ParserState) :
    was_successful st = true ↔
      ∃ rs, st.result_summary = some rs ∧
        truthy (rs.get (js "is_error")) = false ∧
        rs.get (js "subtype") = some (Json.str (js "success")) := by
  unfold was_successful
  cases h : st.result_summary with
  | none => simp
  | some rs =>
    simp only [Bool.and_eq_true, Bool.not_eq_true', Option.some.injEq]
    constructor
    · rintro ⟨h1, h2⟩
      exact ⟨rs, rfl, h1, (jsEqStr_eq_true_iff _ _).mp h2⟩
    · rintro ⟨rs', hrs, h1, h2⟩
      cases hrs
      exact ⟨h1, (jsEqStr_eq_true_iff _ _).mpr h2⟩

/-- C9: the retry delay is `min(initial_delay * exponential_base ^ attempt,
max_delay)` for every configuration and attempt number, and with
`initial_delay = 1`, `exponential_base = 2`, `max_delay = 60` the attempts
0–5 produce 1, 2, 4, 8, 16, 32 and attempt 6 is clamped to 60. -/
theorem c9_retry_backoff :
    (∀ (config : RetryConfig) (attempt : Nat),
        calculate_retry_delay config attempt
          = min (config.initial_delay * config.exponential_base ^ attempt) config.max_delay) ∧
    List.map (calculate_retry_delay { initial_delay := 1, exponential_base := 2, max_delay := 60 })
        [0, 1, 2, 3, 4, 5, 6] = [1, 2, 4, 8, 16, 32, 60] := by
  refine ⟨fun _ _ => rfl, ?_⟩
  simp only [List.map_cons, List.map_nil, calculate_retry_delay]
  norm_num

/-- C10: `get_cost` returns null when no result summary is present and also
when the summary's `total_cost_usd` is zero (zero is falsy in the JS
expression `total_cost_usd || null`), and returns the numeric cost exactly
when it is nonzero. -/
theorem c10_get_cost_zero_is_null :
    (∀ st : ParserState, st.result_summary = none → get_cost st = none) ∧
    (∀ (st : ParserState) (rs : Json), st.result_summary = some rs →
        rs.get (js "total_cost_usd") = some (Json.num 0) → get_cost st = none) ∧
    (∀ (st : ParserState) (rs : Json) (q : Rat), st.result_summary = some rs →
        rs.get (js "total_cost_usd") = some (Json.num q) → q ≠ 0 →
        get_cost st = some (Json.num q)) := by
  refine ⟨fun st h => ?_, fun st rs h hv => ?_, fun st rs q h hv hq => ?_⟩
  · simp [get_cost, h]
  · simp [get_cost, h, hv, truthy, truthyJ]
  · simp [get_cost, h, hv, truthy, truthyJ, hq]

/-- Closed instance of the cost query: evaluated on no summary, a zero-cost
summary and a `0.01`-cost summary. -/
theorem c10_get_cost_zero_is_null_witness :
    get_cost initState = none ∧ get_cost stCostZero = none ∧
    get_cost stCostPos = some (Json.num (1 / 100)) :=
  ⟨c10_get_cost_zero_is_null.1 initState rfl,
   c10_get_cost_zero_is_null.2.1 stCostZero _ rfl rfl,
   c10_get_cost_zero_is_null.2.2 stCostPos _ (1 / 100) rfl rfl (by norm_num)⟩

theorem executeGo_count_record (max_retries : Nat) (outcome : Nat → AttemptResult) :
    ∀ (fuel attempt : Nat),
      (executeGo true max_retries outcome fuel attempt).count Step.recordRequest
        = (executeGo true max_retries outcome fuel attempt).count (Step.runCommand true)
  | 0, _ => rfl
  | fuel + 1, attempt => by
    unfold executeGo
    cases outcome attempt with
    | success => simp [List.count_cons]
    | failure r =>
      by_cases h : r ∧ attempt < max_retries
      · simpa [List.count_cons, h] using executeGo_count_record max_retries outcome fuel (attempt + 1)
      · simp [List.count_cons, h]

theorem executeGo_count_record_disabled (max_retries : Nat) (outcome : Nat → AttemptResult) :
    ∀ (fuel attempt : Nat),
      (executeGo false max_retries outcome fuel attempt).count Step.recordRequest = 0
  | 0, _ => rfl
  | fuel + 1, attempt => by
    unfold executeGo
    cases outcome attempt with
    | success => simp [List.count_cons]
    | failure r =>
      by_cases h : r ∧ attempt < max_retries
      · simpa [List.count_cons, h] using
          executeGo_count_record_disabled max_retries outcome fuel (attempt + 1)
      · simp [List.count_cons, h]

theorem executeGo_records_follow (max_retries : Nat) (outcome : Nat → AttemptResult) :
    ∀ (fuel attempt : Nat),
      recordsFollowSuccess (executeGo true max_retries outcome fuel attempt) = true
  | 0, _ => rfl
  | fuel + 1, attempt => by
    unfold executeGo
    cases outcome attempt with
    | success => rfl
    | failure r =>
      by_cases h : r ∧ attempt < max_retries
      · simpa [h] using executeGo_records_follow max_retries outcome fuel (attempt + 1)
      · simp [h, recordsFollowSuccess]

/-- C6 counterexample: with rate limiting enabled and a first attempt that
throws a retryable error, `execute` runs two attempts but records only one
request, and the single `recordRequest` comes after — not before — the
successful command run. -/
theorem c6_record_per_attempt_cex :
    executeTrace true 3 outcomeFailThenOk
      = [Step.checkRateLimit, Step.runCommand false, Step.backoffSleep,
         Step.checkRateLimit, Step.runCommand true, Step.recordRequest] ∧
    (executeTrace true 3 outcomeFailThenOk).count (Step.runCommand false) = 1 ∧
    (executeTrace true 3 outcomeFailThenOk).count (Step.runCommand true) = 1 ∧
    (executeTrace true 3 outcomeFailThenOk).count Step.recordRequest = 1 :=
  ⟨rfl, rfl, rfl, rfl⟩

/-- C6 amended: in `execute` the rate limiter records one request per
successful command run — failed attempts record nothing — and every
recording happens immediately after its successful run; with rate limiting
disabled nothing is recorded; in `execute_stream` the request is recorded
once, after spawning, before any outcome is known. -/
theorem c6_rate_limit_recording_amended :
    (∀ (max_retries : Nat) (outcome : Nat → AttemptResult),
        (executeTrace true max_retries outcome).count Step.recordRequest
          = (executeTrace true max_retries outcome).count (Step.runCommand true)) ∧
    (∀ (max_retries : Nat) (outcome : Nat → AttemptResult),
        (executeTrace false max_retries outcome).count Step.recordRequest = 0) ∧
    (∀ (max_retries : Nat) (outcome : Nat → AttemptResult),
        recordsFollowSuccess (executeTrace true max_retries outcome) = true) ∧
    execute_stream_prefix true = [Step.checkRateLimit, Step.spawnProcess, Step.recordRequest] :=
  ⟨fun mr outcome => executeGo_count_record mr outcome (mr + 1) 0,
   fun mr outcome => executeGo_count_record_disabled mr outcome (mr + 1) 0,
   fun mr outcome => executeGo_records_follow mr outcome (mr + 1) 0,
   rfl⟩

theorem add_response_session_id (s : Session) (r : AssistantResp ⊕ UserResp) (now : Int) :
    (add_response s r now).session_id = s.session_id := by
  cases r with
  | inl a =>
    unfold add_response
    dsimp only
    split <;> first | (split <;> rfl) | rfl
  | inr u => rfl

theorem foldl_add_response_session_id {α : Type} (g : α → AssistantResp ⊕ UserResp) (now : Int) :
    ∀ (l : List α) (s : Session),
      (l.foldl (fun acc x => add_response acc (g x) now) s).session_id = s.session_id
  | [], _ => rfl
  | x :: xs, s => by
    rw [List.foldl_cons, foldl_add_response_session_id g now xs, add_response_session_id]

/-- C7 counterexample: a session that already holds the identifier `"old"`
loses it — after a successful completion whose `SystemInit` carries
`"new"`, the session identifier is `"new"`, not the kept `"old"`. -/
theorem c7_session_id_overwritten_cex :
    sessOld.session_id = some (.str (js "old")) ∧
    (updateSessionOnExecute sessOld respNew 0).session_id = some (.str (js "new")) :=
  ⟨rfl, rfl⟩

/-- C7 amended: on every successful completion with a session attached and a
`SystemInit` present, the session identifier is unconditionally overwritten
with the `SystemInit`'s `session_id`, whether or not the session already
held one. -/
theorem c7_session_id_always_overwritten (s : Session) (r : ClaudeResp) (si : Json) (now : Int)
    (h : r.system_init = some si) (ht : truthyJ si = true) :
    (updateSessionOnExecute s r now).session_id = si.get (js "session_id") := by
  unfold updateSessionOnExecute
  rw [h]
  simp only [ht, if_true]
  cases hr : r.result_summary with
  | none =>
    simp only [hr]
    rw [foldl_add_response_session_id, foldl_add_response_session_id]
  | some rs =>
    simp only [hr]
    rw [foldl_add_response_session_id, foldl_add_response_session_id]

/-- Closed instance of the amended session-identifier behaviour at the
counterexample state. -/
theorem c7_session_id_always_overwritten_witness :
    (updateSessionOnExecute sessOld respNew 0).session_id = siNew.get (js "session_id") :=
  c7_session_id_always_overwritten sessOld respNew siNew 0 rfl rfl

theorem should_delay_fst (st : RateLimitState) (cfg : RateLimitConfig) (now : Int) :
    (should_delay st cfg now).1 =
      { st with
          requests_this_minute :=
            if now - st.minute_reset_time ≥ 60000 then 0 else st.requests_this_minute
          minute_reset_time :=
            if now - st.minute_reset_time ≥ 60000 then now else st.minute_reset_time
          requests_this_hour :=
            if now - st.hour_reset_time ≥ 3600000 then 0 else st.requests_this_hour
          hour_reset_time :=
            if now - st.hour_reset_time ≥ 3600000 then now else st.hour_reset_time } := by
  unfold should_delay
  dsimp only
  split_ifs <;> rfl

/-- C8 counterexample: with both ceilings at 2, both windows full and both
window starts at time 0, a check at time 61000 ms — more than 60 s after the
minute-window start — still reports a delay (the hour window is over its
ceiling), although it does reset the minute counter. -/
theorem c8_reset_still_delays_cex :
    (61000 : Int) - rlStateFull.minute_reset_time > 60000 ∧
    (should_delay rlStateFull rlCfgTwo 61000).2.1 = true ∧
    (should_delay rlStateFull rlCfgTwo 61000).2.2 = 3539 ∧
    (should_delay rlStateFull rlCfgTwo 61000).1.requests_this_minute = 0 := by
  refine ⟨by decide, ?_, ?_, by decide⟩
  · simp [should_delay, rlStateFull, rlCfgTwo]
  · simp [should_delay, rlStateFull, rlCfgTwo]
    norm_num

/-- C8 amended: a full minute window that is still live reports a positive
delay of at most 60 s; each window resets (count to 0, start to now) on the
next check once at least its window length has elapsed; the check reports no
delay exactly when, after those resets, both counters are below their
ceilings (so a counter still at or above its ceiling always forces a
reported delay); and the reported delay is never negative. -/
theorem c8_rate_limit_windowing_amended :
    (∀ (st : RateLimitState) (cfg : RateLimitConfig) (now : Int),
        st.requests_this_minute ≥ cfg.requests_per_minute →
        0 ≤ now - st.minute_reset_time →
        now - st.minute_reset_time < 60000 →
        (should_delay st cfg now).2.1 = true ∧
        0 < (should_delay st cfg now).2.2 ∧ (should_delay st cfg now).2.2 ≤ 60) ∧
    (∀ (st : RateLimitState) (cfg : RateLimitConfig) (now : Int),
        60000 ≤ now - st.minute_reset_time →
        (should_delay st cfg now).1.requests_this_minute = 0 ∧
        (should_delay st cfg now).1.minute_reset_time = now) ∧
    (∀ (st : RateLimitState) (cfg : RateLimitConfig) (now : Int),
        3600000 ≤ now - st.hour_reset_time →
        (should_delay st cfg now).1.requests_this_hour = 0 ∧
        (should_delay st cfg now).1.hour_reset_time = now) ∧
    (∀ (st : RateLimitState) (cfg : RateLimitConfig) (now : Int),
        (should_delay st cfg now).2 = (false, 0) ↔
        ((should_delay st cfg now).1.requests_this_minute < cfg.requests_per_minute ∧
         (should_delay st cfg now).1.requests_this_hour < cfg.requests_per_hour)) ∧
    (∀ (st : RateLimitState) (cfg : RateLimitConfig) (now : Int),
        0 ≤ (should_delay st cfg now).2.2) := by
  refine ⟨?_, ?_, ?_, ?_, ?_⟩
  · intro st cfg now hcount h0 hlt
    have he0 : (0 : Rat) ≤ ((now - st.minute_reset_time : Int) : Rat) := by exact_mod_cast h0
    have helt : ((now - st.minute_reset_time : Int) : Rat) < 60000 := by exact_mod_cast hlt
    have hdpos : 0 < 60 - ((now - st.minute_reset_time : Int) : Rat) / 1000 := by
      have : ((now - st.minute_reset_time : Int) : Rat) / 1000 < 60 := by
        rw [div_lt_iff₀ (by norm_num : (0 : Rat) < 1000)]
        linarith
      linarith
    have hdle : 60 - ((now - st.minute_reset_time : Int) : Rat) / 1000 ≤ 60 := by
      have : 0 ≤ ((now - st.minute_reset_time : Int) : Rat) / 1000 := by positivity
      linarith
    have hres : (should_delay st cfg now).2
        = (true, max 0 (60 - ((now - st.minute_reset_time : Int) : Rat) / 1000)) := by
      unfold should_delay
      dsimp only
      rw [if_neg (show ¬ now - st.minute_reset_time ≥ 60000 by omega)]
      by_cases hh : now - st.hour_reset_time ≥ 3600000
      · rw [if_pos hh,
          if_pos (show ({ st with requests_this_hour := 0, hour_reset_time := now }
            : RateLimitState).requests_this_minute ≥ cfg.requests_per_minute from hcount)]
        dsimp only
        push_cast
        rfl
      · rw [if_neg hh,
          if_pos (show st.requests_this_minute ≥ cfg.requests_per_minute from hcount)]
        dsimp only
        push_cast
        rfl
    rw [hres]
    exact ⟨rfl, lt_max_iff.mpr (Or.inr hdpos), max_le (by norm_num) hdle⟩
  · intro st cfg now h
    rw [should_delay_fst]
    simp [h]
  · intro st cfg now h
    rw [should_delay_fst]
    simp [h]
  · intro st cfg now
    constructor
    · intro h
      rw [should_delay_fst]
      dsimp only
      unfold should_delay at h
      dsimp only at h
      split_ifs at h ⊢ <;> dsimp only at * <;> first
        | omega
        | (exact absurd h (by simp))
    · rintro ⟨h1, h2⟩
      rw [should_delay_fst] at h1 h2
      dsimp only at h1 h2
      unfold should_delay
      dsimp only
      split_ifs at h1 h2 ⊢ <;> dsimp only at * <;> first
        | rfl
        | omega
  · intro st cfg now
    unfold should_delay
    dsimp only
    split_ifs <;> simp [le_max_left]

/-- Closed instances of the amended rate-limit behaviour: the spec scenario
(ceiling 2/minute, 2 recorded requests, third check at 30 s reports a
positive delay of at most 60 s; a check at 61 s resets the minute window and
reports no delay), an hour-window reset, both directions of the
no-delay-iff-below-ceilings equivalence, and the non-negativity bound. -/
theorem c8_rate_limit_windowing_amended_witness :
    ((should_delay rlStateMinuteFull rlCfgSpec 30000).2.1 = true ∧
      0 < (should_delay rlStateMinuteFull rlCfgSpec 30000).2.2 ∧
      (should_delay rlStateMinuteFull rlCfgSpec 30000).2.2 ≤ 60) ∧
    ((should_delay rlStateMinuteFull rlCfgSpec 61000).1.requests_this_minute = 0 ∧
      (should_delay rlStateMinuteFull rlCfgSpec 61000).1.minute_reset_time = 61000) ∧
    ((should_delay rlStateFull rlCfgTwo 3700000).1.requests_this_hour = 0 ∧
      (should_delay rlStateFull rlCfgTwo 3700000).1.hour_reset_time = 3700000) ∧
    (should_delay rlStateMinuteFull rlCfgSpec 61000).2 = (false, 0) ∧
    (should_delay rlStateFull rlCfgTwo 61000).2 ≠ (false, 0) ∧
    0 ≤ (should_delay rlStateMinuteFull rlCfgSpec 30000).2.2 :=
  ⟨c8_rate_limit_windowing_amended.1 rlStateMinuteFull rlCfgSpec 30000
      (by decide) (by decide) (by decide),
   c8_rate_limit_windowing_amended.2.1 rlStateMinuteFull rlCfgSpec 61000 (by decide),
   c8_rate_limit_windowing_amended.2.2.1 rlStateFull rlCfgTwo 3700000 (by decide),
   (c8_rate_limit_windowing_amended.2.2.2.1 rlStateMinuteFull rlCfgSpec 61000).mpr
      ⟨by decide, by decide⟩,
   fun h => absurd
     ((c8_rate_limit_windowing_amended.2.2.2.1 rlStateFull rlCfgTwo 61000).mp h).2
     (by decide),
   c8_rate_limit_windowing_amended.2.2.2.2 rlStateMinuteFull rlCfgSpec 30000⟩

theorem jsOr_str_default (t : JStr) : jsOr (some (Json.str t)) (Json.str []) = Json.str t := by
  cases t <;> rfl

theorem collectTextParts_good : ∀ (l : List Json), (∀ b ∈ l, GoodBlock b) →
    ∃ parts, collectTextParts l = some parts ∧
      (parts.map jsToString).foldr (· ++ ·) []
        = (l.map (fun b =>
            if jsEqStr (b.get (js "type")) (js "text") then
              match b.get (js "text") with
              | some (.str t) => t
              | _ => []
            else [])).foldr (· ++ ·) [] := by
  intro l hl
  induction l with
  | nil => exact ⟨[], rfl, rfl⟩
  | cons b r ih =>
    obtain ⟨parts, hp, hj⟩ := ih (fun x hx => hl x (List.mem_cons_of_mem _ hx))
    have hb := hl b (List.mem_cons_self b r)
    cases b with
    | null => exact absurd rfl hb.1
    | bool v => exact ⟨parts, hp, hj⟩
    | num q => exact ⟨parts, hp, hj⟩
    | str s => exact ⟨parts, hp, hj⟩
    | arr a => exact ⟨parts, hp, hj⟩
    | obj fields =>
      by_cases hty : jsEqStr ((Json.obj fields).get (js "type")) (js "text") = true
      · obtain ⟨t, ht⟩ := hb.2 hty
        refine ⟨Json.str t :: parts, ?_, ?_⟩
        · simp [collectTextParts, typeofObject, hty, ht, hp, jsOr_str_default]
        · simp [hty, ht, jsToString, hj]
      · refine ⟨parts, ?_, ?_⟩
        · simp [collectTextParts, typeofObject, hty, hp]
        · simp [hty, hj]

theorem classify_mkUserLine (st1 : ParserState) (tu cf : Json) (text : JStr)
    (hflat : flattenToolResult (jsOr (some cf) (Json.str [])) = some text) :
    classify st1 (mkUserLine tu cf)
      = ({ st1 with user_responses := st1.user_responses ++ [mkUserResp tu cf text] },
         some (.user (mkUserResp tu cf text))) := by
  have step : classify st1 (mkUserLine tu cf)
      = (match (match flattenToolResult (jsOr (some cf) (Json.str [])) with
                | none => none
                | some text' => some [mkToolResult tu text']) with
         | none => (st1, none)
         | some content_list =>
            ({ st1 with user_responses := st1.user_responses ++
                [UserResp.mk (mkUserMessage tu cf) content_list none none] },
             some (.user (UserResp.mk (mkUserMessage tu cf) content_list none none)))) := rfl
  rw [hflat] at step
  exact step

/-- C3: tool-result flattening.  A single-string raw content is used
verbatim; an array of well-formed blocks is flattened to the in-order,
no-separator concatenation of the `text` of blocks whose type is `text`,
ignoring non-text blocks (equality with the spec-side rule); a user-type
line with one `tool_result` block produces exactly one user response whose
derived text is the flattened content; the claim's concrete examples
evaluate to `"ab"` and `"plain"`. -/
theorem c3_tool_result_flattening :
    (∀ s, flattenToolResult (Json.str s) = some s) ∧
    (∀ l : List Json, (∀ b ∈ l, GoodBlock b) →
        flattenToolResult (Json.arr l) = spec_flatten_tool_result (Json.arr l)) ∧
    (∀ (decode : JStr → Option Json) (st : ParserState) (line : JStr) (tu cf : Json)
        (text : JStr),
        decode (trimChars line) = some (mkUserLine tu cf) →
        (trimChars line).head? = some '{' →
        (trimChars line).getLast? = some '}' →
        flattenToolResult (jsOr (some cf) (Json.str [])) = some text →
        (parse_line decode st line).1.user_responses
            = st.user_responses ++ [mkUserResp tu cf text] ∧
        (parse_line decode st line).2 = some (.user (mkUserResp tu cf text))) ∧
    flattenToolResult (Json.arr blocksAB) = some (js "ab") ∧
    flattenToolResult (Json.str (js "plain")) = some (js "plain") := by
  refine ⟨fun s => rfl, ?_, ?_, rfl, rfl⟩
  · intro l hl
    obtain ⟨parts, hp, hj⟩ := collectTextParts_good l hl
    calc flattenToolResult (Json.arr l)
        = (collectTextParts l).map
            (fun p => (p.map jsToString).foldr (· ++ ·) []) := rfl
      _ = some ((parts.map jsToString).foldr (· ++ ·) []) := by rw [hp]; rfl
      _ = spec_flatten_tool_result (Json.arr l) := by rw [hj]; exact rfl
  · intro decode st line tu cf text hdec hhead hlast hflat
    have hne : (trimChars line).isEmpty = false := by
      cases h : trimChars line with
      | nil => rw [h] at hhead; simp at hhead
      | cons c r => rfl
    have hres : parse_line decode st line
        = classify { st with raw_lines := st.raw_lines ++ [trimChars line],
                             events := st.events ++ [mkUserLine tu cf] } (mkUserLine tu cf) := by
      unfold parse_line
      rw [if_neg (by simp [hne]), if_neg (by simp [hhead]), if_neg (by simp [hlast]), hdec]
    rw [hres, classify_mkUserLine _ tu cf text hflat]
    exact ⟨rfl, rfl⟩

set_option maxRecDepth 8192 in
/-- Closed instance of the flattening claim: the array example flattens to
`"ab"` and matches the spec-side rule, and parsing the concrete user line
appends exactly the expected user response. -/
theorem c3_tool_result_flattening_witness :
    flattenToolResult (Json.arr blocksAB) = spec_flatten_tool_result (Json.arr blocksAB) ∧
    (parse_line decodeUserAB initState userLineAB).1.user_responses
        = initState.user_responses ++ [mkUserResp tuExample (Json.arr blocksAB) (js "ab")] :=
  ⟨c3_tool_result_flattening.2.1 blocksAB (by
      intro b hb
      simp only [blocksAB, List.mem_cons, List.not_mem_nil, or_false] at hb
      rcases hb with rfl | rfl | rfl
      · exact ⟨fun h => Json.noConfusion h, fun _ => ⟨js "a", rfl⟩⟩
      · exact ⟨fun h => Json.noConfusion h, fun _ => ⟨js "b", rfl⟩⟩
      · exact ⟨fun h => Json.noConfusion h, fun h => absurd h (by decide)⟩),
   (c3_tool_result_flattening.2.2.1 decodeUserAB initState userLineAB tuExample
      (Json.arr blocksAB) (js "ab") rfl rfl rfl rfl).1⟩

theorem dropWhile_self_idem {α : Type} (p : α → Bool) (l : List α) :
    (l.dropWhile p).dropWhile p = l.dropWhile p := by
  cases h : l.dropWhile p with
  | nil => rfl
  | cons x t =>
    have hx := List.head?_dropWhile_not p l
    rw [h] at hx
    simp only [List.head?_cons] at hx
    rw [List.dropWhile_cons, hx]
    simp

theorem head_dropWhile_false {α : Type} {p : α → Bool} {l : List α} {x : α} {t : List α}
    (h : l.dropWhile p = x :: t) : p x = false := by
  have := List.head?_dropWhile_not p l
  rw [h] at this
  exact this

theorem suffix_getLast? {α : Type} {l₁ l₂ : List α} (h : l₁ <:+ l₂) (hne : l₁ ≠ []) :
    l₂.getLast? = l₁.getLast? := by
  obtain ⟨pre, rfl⟩ := h
  cases hx : l₁.getLast? with
  | none => exact absurd (List.getLast?_eq_none_iff.mp hx) hne
  | some x => rw [List.getLast?_append, hx]; rfl

theorem trimChars_idem (l : JStr) : trimChars (trimChars l) = trimChars l := by
  unfold trimChars
  set D := l.dropWhile Char.isWhitespace with hD
  set E := D.reverse.dropWhile Char.isWhitespace with hE
  have hEE : E.dropWhile Char.isWhitespace = E := by
    rw [hE]; exact dropWhile_self_idem _ _
  have claim1 : E.reverse.dropWhile Char.isWhitespace = E.reverse := by
    cases hEnil : E with
    | nil => simp [hEnil]
    | cons x t =>
      have hne : E ≠ [] := by rw [hEnil]; simp
      have h1 : D.reverse.getLast? = E.getLast? :=
        suffix_getLast? (hE ▸ List.dropWhile_suffix _) hne
      cases hDh : D with
      | nil =>
        rw [hDh] at hE
        simp only [List.reverse_nil, List.dropWhile_nil] at hE
        exact absurd (hE ▸ hEnil) (by simp)
      | cons d ds =>
        have hdw : Char.isWhitespace d = false := head_dropWhile_false (hD ▸ hDh)
        have h2 : D.reverse.getLast? = some d := by
          rw [List.getLast?_reverse, hDh]; rfl
        have h3 : E.reverse.head? = some d := by
          rw [List.head?_reverse, ← h1, h2]
        cases hr : E.reverse with
        | nil => rw [hr] at h3; simp at h3
        | cons y u =>
          rw [hr] at h3
          simp only [List.head?_cons, Option.some.injEq] at h3
          subst h3
          rw [hEnil] at hr
          rw [hr, List.dropWhile_cons, hdw]
          simp
  rw [claim1, List.reverse_reverse, hEE]

theorem parse_line_trim_congr (decode : JStr → Option Json) (st : ParserState) {a b : JStr}
    (h : trimChars a = trimChars b) : parse_line decode st a = parse_line decode st b := by
  unfold parse_line
  rw [h]

theorem parse_line_trim (decode : JStr → Option Json) (st : ParserState) (l : JStr) :
    parse_line decode st (trimChars l) = parse_line decode st l :=
  parse_line_trim_congr decode st (trimChars_idem l)

theorem parse_line_reject (decode : JStr → Option Json) (st : ParserState) (l : JStr)
    (h : (trimChars l).isEmpty = true ∨ (trimChars l).head? ≠ some '{') :
    parse_line decode st l = (st, none) := by
  unfold parse_line
  by_cases he : (trimChars l).isEmpty = true
  · rw [if_pos he]
  · rcases h with h | h
    · exact absurd h he
    · rw [if_neg he, if_pos h]

theorem dispatchLine_spec (decode : JStr → Option Json) (p : ParserState) (l : JStr) :
    dispatchLine decode false p (trimChars l)
      = ((parse_line decode p l).1, ((parse_line decode p l).2.map StreamItem.ev).toList) := by
  unfold dispatchLine
  by_cases hc : (trimChars l).isEmpty = false ∧ (trimChars l).head? = some '{'
  · rw [if_pos hc]
    rw [show (if false then (p, [StreamItem.raw (trimChars l)])
        else match parse_line decode p (trimChars l) with
          | (p', some e) => (p', [StreamItem.ev e])
          | (p', none) => (p', [])) = (match parse_line decode p (trimChars l) with
          | (p', some e) => (p', [StreamItem.ev e])
          | (p', none) => (p', [])) from rfl]
    rw [parse_line_trim]
    rcases h : parse_line decode p l with ⟨p', e⟩
    cases e <;> rfl
  · rw [if_neg hc]
    have hrej : parse_line decode p l = (p, none) := by
      apply parse_line_reject
      by_cases he : (trimChars l).isEmpty = true
      · exact Or.inl he
      · refine Or.inr ?_
        rcases not_and_or.mp hc with h | h
        · exact absurd (by simpa using he) h
        · exact h
    rw [hrej]
    rfl

theorem parseLines_cons (decode : JStr → Option Json) (p : ParserState) (x : JStr)
    (t : List JStr) :
    parseLines decode p (x :: t)
      = ((parseLines decode (parse_line decode p x).1 t).1,
         (parse_line decode p x).2.toList ++ (parseLines decode (parse_line decode p x).1 t).2) := by
  have hdef : parseLines decode p (x :: t)
      = (match parse_line decode p x with
         | (st', e) =>
           match parseLines decode st' t with
           | (st'', es) => (st'', e.toList ++ es)) := rfl
  rcases h : parse_line decode p x with ⟨p', e⟩
  rw [hdef, h]

theorem dispatchLines_cons (decode : JStr → Option Json) (y : Bool) (p : ParserState)
    (x : JStr) (t : List JStr) :
    dispatchLines decode y p (x :: t)
      = ((dispatchLines decode y (dispatchLine decode y p (trimChars x)).1 t).1,
         (dispatchLine decode y p (trimChars x)).2
           ++ (dispatchLines decode y (dispatchLine decode y p (trimChars x)).1 t).2) := by
  have hdef : dispatchLines decode y p (x :: t)
      = (match dispatchLine decode y p (trimChars x) with
         | (p', items) =>
           match dispatchLines decode y p' t with
           | (p'', items') => (p'', items ++ items')) := rfl
  rcases h : dispatchLine decode y p (trimChars x) with ⟨p', items⟩
  rw [hdef, h]

theorem parseLines_append (decode : JStr → Option Json) (xs ys : List JStr) :
    ∀ p, parseLines decode p (xs ++ ys)
      = ((parseLines decode (parseLines decode p xs).1 ys).1,
         (parseLines decode p xs).2 ++ (parseLines decode (parseLines decode p xs).1 ys).2) := by
  induction xs with
  | nil => intro p; simp [parseLines]
  | cons x t ih =>
    intro p
    rw [List.cons_append, parseLines_cons, parseLines_cons, ih]
    simp [List.append_assoc]

theorem dispatchLines_append (decode : JStr → Option Json) (y : Bool) (xs ys : List JStr) :
    ∀ p, dispatchLines decode y p (xs ++ ys)
      = ((dispatchLines decode y (dispatchLines decode y p xs).1 ys).1,
         (dispatchLines decode y p xs).2
           ++ (dispatchLines decode y (dispatchLines decode y p xs).1 ys).2) := by
  induction xs with
  | nil => intro p; simp [dispatchLines]
  | cons x t ih =>
    intro p
    rw [List.cons_append, dispatchLines_cons, dispatchLines_cons, ih]
    simp [List.append_assoc]

theorem splitOnNl_ne_nil (s : JStr) : splitOnNl s ≠ [] := by
  cases s with
  | nil => simp [splitOnNl]
  | cons c r =>
    unfold splitOnNl
    by_cases h : c = '\n'
    · simp [h]
    · simp only [h, if_false]
      cases splitOnNl r <;> simp

theorem splitOnNl_no_nl {s : JStr} (h : '\n' ∉ s) : splitOnNl s = [s] := by
  induction s with
  | nil => rfl
  | cons c r ih =>
    have hc : ¬(c = '\n') := fun e => h (e ▸ List.mem_cons_self _ _)
    have hr : '\n' ∉ r := fun m => h (List.mem_cons_of_mem _ m)
    unfold splitOnNl
    rw [if_neg hc, ih hr]

theorem splitOnNl_append_nl_cons (L R : JStr) (h : '\n' ∉ L) :
    splitOnNl (L ++ '\n' :: R) = L :: splitOnNl R := by
  induction L with
  | nil => rfl
  | cons c t ih =>
    have hc : ¬(c = '\n') := fun e => h (e ▸ List.mem_cons_self _ _)
    have ht : '\n' ∉ t := fun m => h (List.mem_cons_of_mem _ m)
    simp only [List.cons_append]
    conv_lhs => rw [splitOnNl]
    rw [if_neg hc, ih ht]

theorem getLastD_of_ne_nil {α : Type} {l : List α} (h : l ≠ []) (d d' : α) :
    l.getLastD d = l.getLastD d' := by
  rw [List.getLastD_eq_getLast?, List.getLastD_eq_getLast?]
  cases hx : l.getLast? with
  | none => exact absurd (List.getLast?_eq_none_iff.mp hx) h
  | some x => rfl

theorem splitOnNl_cons_of_ne {c : Char} (hc : ¬(c = '\n')) (x : JStr) {h' : JStr}
    {t' : List JStr} (hx : splitOnNl x = h' :: t') :
    splitOnNl (c :: x) = (c :: h') :: t' := by
  conv_lhs => rw [splitOnNl]
  rw [if_neg hc, hx]

theorem splitOnNl_append (a b : JStr) :
    splitOnNl (a ++ b)
      = (splitOnNl a).dropLast ++ (splitOnNl b).modifyHead (lastLine a ++ ·) := by
  induction a with
  | nil =>
    have hmod : (splitOnNl b).modifyHead (lastLine [] ++ ·) = splitOnNl b := by
      cases splitOnNl b <;> simp [lastLine, splitOnNl]
    simp [hmod, splitOnNl]
  | cons c a' ih =>
    by_cases hc : c = '\n'
    · subst hc
      have h1 : splitOnNl ('\n' :: (a' ++ b)) = [] :: splitOnNl (a' ++ b) := rfl
      have h2 : splitOnNl ('\n' :: a') = [] :: splitOnNl a' := rfl
      have h3 : lastLine ('\n' :: a') = lastLine a' := by
        unfold lastLine
        rw [h2, List.getLastD_cons]
      rw [List.cons_append, h1, ih, h2, h3,
        List.dropLast_cons_of_ne_nil (splitOnNl_ne_nil a'), List.cons_append]
    · rcases hsa : splitOnNl a' with _ | ⟨ha, ta⟩
      · exact absurd hsa (splitOnNl_ne_nil a')
      rcases hsb : splitOnNl (a' ++ b) with _ | ⟨hb, tb⟩
      · exact absurd hsb (splitOnNl_ne_nil _)
      rcases hsbb : splitOnNl b with _ | ⟨hb0, tb0⟩
      · exact absurd hsbb (splitOnNl_ne_nil b)
      have hla : lastLine (c :: a')
          = (ta.getLastD (c :: ha)) := by
        unfold lastLine
        rw [splitOnNl_cons_of_ne hc a' hsa, List.getLastD_cons]
      rw [List.cons_append, splitOnNl_cons_of_ne hc (a' ++ b) hsb,
        splitOnNl_cons_of_ne hc a' hsa]
      rw [hsb, hsa, hsbb] at ih
      cases ta with
      | nil =>
        -- a' has a single line ha; lastLine a' = ha, dropLast [ha] = []
        have hlaa : lastLine a' = ha := by
          unfold lastLine
          rw [hsa]
          rfl
        rw [hlaa] at ih
        simp only [List.dropLast_single, List.nil_append, List.modifyHead_cons] at ih
        rcases ih with ⟨rfl, rfl⟩
        rw [hla]
        simp [List.modifyHead_cons]
      | cons t0 ta' =>
        have hlaa : lastLine a' = (t0 :: ta').getLastD ha := by
          unfold lastLine
          rw [hsa, List.getLastD_cons]
        rw [hlaa] at ih
        rw [List.dropLast_cons_of_ne_nil (by simp)] at ih
        simp only [List.cons_append, List.cons.injEq] at ih
        rcases ih with ⟨rfl, htb⟩
        rw [hla, List.dropLast_cons_of_ne_nil (by simp), htb]
        rw [getLastD_of_ne_nil (by simp : t0 :: ta' ≠ []) (c :: hb) hb]
        simp

theorem lastLine_no_nl (s : JStr) : '\n' ∉ lastLine s := by
  induction s with
  | nil => simp [lastLine, splitOnNl]
  | cons c r ih =>
    by_cases hc : c = '\n'
    · subst hc
      have h1 : lastLine ('\n' :: r) = lastLine r := by
        unfold lastLine
        rw [show splitOnNl ('\n' :: r) = [] :: splitOnNl r from rfl, List.getLastD_cons]
      rw [h1]
      exact ih
    · rcases hsr : splitOnNl r with _ | ⟨h0, t0⟩
      · exact absurd hsr (splitOnNl_ne_nil r)
      have hlr : lastLine r = t0.getLastD h0 := by
        unfold lastLine
        rw [hsr, List.getLastD_cons]
      unfold lastLine
      rw [splitOnNl_cons_of_ne hc r hsr, List.getLastD_cons]
      cases t0 with
      | nil =>
        intro hmem
        rcases List.mem_cons.mp hmem with h | h
        · exact hc h.symm
        · rw [hlr] at ih
          exact ih h
      | cons t1 ts =>
        rw [getLastD_of_ne_nil (by simp : t1 :: ts ≠ []) (c :: h0) h0]
        rw [hlr] at ih
        exact ih

theorem splitOnNl_lastLine_append (a b : JStr) :
    splitOnNl (lastLine a ++ b) = (splitOnNl b).modifyHead (lastLine a ++ ·) := by
  rw [splitOnNl_append]
  have h1 : splitOnNl (lastLine a) = [lastLine a] := splitOnNl_no_nl (lastLine_no_nl a)
  have h2 : lastLine (lastLine a) = lastLine a := by
    rw [show lastLine (lastLine a) = (splitOnNl (lastLine a)).getLastD [] from rfl, h1]
    rfl
  rw [h1, h2]
  rfl

theorem splitOnNl_append_eq (a b : JStr) :
    splitOnNl (a ++ b) = (splitOnNl a).dropLast ++ splitOnNl (lastLine a ++ b) := by
  rw [splitOnNl_append, splitOnNl_lastLine_append]

theorem dropLast_splitOnNl_append (a b : JStr) :
    (splitOnNl (a ++ b)).dropLast
      = (splitOnNl a).dropLast ++ (splitOnNl (lastLine a ++ b)).dropLast := by
  rw [splitOnNl_append_eq, List.dropLast_append_of_ne_nil _ (splitOnNl_ne_nil _)]

theorem lastLine_append (a b : JStr) : lastLine (a ++ b) = lastLine (lastLine a ++ b) := by
  rw [show lastLine (a ++ b) = (splitOnNl (a ++ b)).getLastD [] from rfl,
    show lastLine (lastLine a ++ b) = (splitOnNl (lastLine a ++ b)).getLastD [] from rfl]
  rw [splitOnNl_append_eq]
  rw [List.getLastD_eq_getLast?, List.getLastD_eq_getLast?, List.getLast?_append]
  cases hx : (splitOnNl (lastLine a ++ b)).getLast? with
  | none => exact absurd (List.getLast?_eq_none_iff.mp hx) (splitOnNl_ne_nil _)
  | some x => rfl

theorem drainGo_no_nl (decode : JStr → Option Json) (y : Bool) (fuel : Nat) (sp : SPState)
    (h : '\n' ∉ sp.buffer) : drainGo decode y fuel sp = (sp, []) := by
  cases fuel with
  | zero => rfl
  | succ n =>
    unfold drainGo
    rw [if_neg h]

theorem dropWhile_ne_nl_eq {b : JStr} (hnl : '\n' ∈ b) :
    b.dropWhile (· ≠ '\n') = '\n' :: (b.dropWhile (· ≠ '\n')).tail := by
  cases hh : b.dropWhile (· ≠ '\n') with
  | nil =>
    exfalso
    have := List.dropWhile_eq_nil_iff.mp hh '\n' hnl
    simp at this
  | cons x t =>
    have hx := head_dropWhile_false hh
    simp only [decide_eq_false_iff_not, not_not] at hx
    subst hx
    rfl

theorem takeWhile_ne_nl_no_nl (b : JStr) : '\n' ∉ b.takeWhile (· ≠ '\n') := by
  intro hm
  have := List.mem_takeWhile_imp hm
  simp at this

theorem buffer_decomp {b : JStr} (hnl : '\n' ∈ b) :
    b = b.takeWhile (· ≠ '\n') ++ '\n' :: (b.dropWhile (· ≠ '\n')).tail := by
  conv_lhs => rw [← List.takeWhile_append_dropWhile (p := (· ≠ '\n')) (l := b),
    dropWhile_ne_nl_eq hnl]

theorem drainGo_spec (decode : JStr → Option Json) (y : Bool) :
    ∀ (fuel : Nat) (sp : SPState), sp.buffer.length ≤ fuel →
      drainGo decode y fuel sp
        = (⟨lastLine sp.buffer,
            (dispatchLines decode y sp.parser (splitOnNl sp.buffer).dropLast).1⟩,
           (dispatchLines decode y sp.parser (splitOnNl sp.buffer).dropLast).2) := by
  intro fuel
  induction fuel with
  | zero =>
    rintro ⟨b, p⟩ h
    simp only [List.length_eq_zero] at h
    norm_num at h
    subst h
    rfl
  | succ n ih =>
    rintro ⟨b, p⟩ h
    by_cases hnl : '\n' ∈ b
    · have hstep : drainGo decode y (n + 1) ⟨b, p⟩
          = if '\n' ∈ b then
              ((drainGo decode y n ⟨(b.dropWhile (· ≠ '\n')).tail,
                  (dispatchLine decode y p (trimChars (b.takeWhile (· ≠ '\n')))).1⟩).1,
               (dispatchLine decode y p (trimChars (b.takeWhile (· ≠ '\n')))).2
                 ++ (drainGo decode y n ⟨(b.dropWhile (· ≠ '\n')).tail,
                      (dispatchLine decode y p (trimChars (b.takeWhile (· ≠ '\n')))).1⟩).2)
            else (⟨b, p⟩, []) := rfl
      rw [hstep, if_pos hnl]
      have hlen : ((b.dropWhile (· ≠ '\n')).tail).length ≤ n := by
        have hb2 : b.length ≤ n + 1 := h
        have hb := buffer_decomp hnl
        have := congrArg List.length hb
        rw [List.length_append] at this
        simp only [List.length_cons] at this
        omega
      rw [ih ⟨(b.dropWhile (· ≠ '\n')).tail,
            (dispatchLine decode y p (trimChars (b.takeWhile (· ≠ '\n')))).1⟩ hlen]
      have hsb : splitOnNl b
          = (b.takeWhile (· ≠ '\n')) :: splitOnNl ((b.dropWhile (· ≠ '\n')).tail) := by
        conv_lhs => rw [buffer_decomp hnl]
        exact splitOnNl_append_nl_cons _ _ (takeWhile_ne_nl_no_nl b)
      have hlastb : lastLine b = lastLine ((b.dropWhile (· ≠ '\n')).tail) := by
        rw [show lastLine b = (splitOnNl b).getLastD [] from rfl, hsb, List.getLastD_cons]
        exact getLastD_of_ne_nil (splitOnNl_ne_nil _) _ _
      rw [hsb, hlastb, List.dropLast_cons_of_ne_nil (splitOnNl_ne_nil _), dispatchLines_cons]
    · rw [drainGo_no_nl decode y (n + 1) ⟨b, p⟩ hnl]
      have hsp : splitOnNl b = [b] := splitOnNl_no_nl hnl
      have hlast : lastLine b = b := by
        rw [show lastLine b = (splitOnNl b).getLastD [] from rfl, hsp]
        rfl
      rw [hsp, hlast]
      rfl

theorem drainBuffer_spec (decode : JStr → Option Json) (y : Bool) (sp : SPState) :
    drainBuffer decode y sp
      = (⟨lastLine sp.buffer,
          (dispatchLines decode y sp.parser (splitOnNl sp.buffer).dropLast).1⟩,
         (dispatchLines decode y sp.parser (splitOnNl sp.buffer).dropLast).2) :=
  drainGo_spec decode y sp.buffer.length sp le_rfl

theorem parse_chunk_spec (decode : JStr → Option Json) (y : Bool) (sp : SPState) (c : JStr) :
    parse_chunk decode y sp c
      = (⟨lastLine (sp.buffer ++ c),
          (dispatchLines decode y sp.parser (splitOnNl (sp.buffer ++ c)).dropLast).1⟩,
         (dispatchLines decode y sp.parser (splitOnNl (sp.buffer ++ c)).dropLast).2) := by
  unfold parse_chunk
  exact drainBuffer_spec decode y ⟨sp.buffer ++ c, sp.parser⟩

theorem parse_chunk_append (decode : JStr → Option Json) (y : Bool) (sp : SPState)
    (a b : JStr) :
    parse_chunk decode y sp (a ++ b)
      = ((parse_chunk decode y (parse_chunk decode y sp a).1 b).1,
         (parse_chunk decode y sp a).2
           ++ (parse_chunk decode y (parse_chunk decode y sp a).1 b).2) := by
  rw [parse_chunk_spec decode y sp (a ++ b), parse_chunk_spec decode y sp a]
  rw [parse_chunk_spec decode y ⟨lastLine (sp.buffer ++ a),
    (dispatchLines decode y sp.parser (splitOnNl (sp.buffer ++ a)).dropLast).1⟩ b]
  dsimp only
  rw [show sp.buffer ++ (a ++ b) = (sp.buffer ++ a) ++ b from (List.append_assoc _ _ _).symm]
  rw [dropLast_splitOnNl_append (sp.buffer ++ a) b, dispatchLines_append]
  rw [← lastLine_append (sp.buffer ++ a) b]

theorem runChunks_cons (decode : JStr → Option Json) (y : Bool) (sp : SPState) (c : JStr)
    (cs : List JStr) :
    runChunks decode y sp (c :: cs)
      = ((runChunks decode y (parse_chunk decode y sp c).1 cs).1,
         (parse_chunk decode y sp c).2
           ++ (runChunks decode y (parse_chunk decode y sp c).1 cs).2) := rfl

theorem runChunks_join (decode : JStr → Option Json) (y : Bool) :
    ∀ (chunks : List JStr) (sp : SPState), '\n' ∉ sp.buffer →
      runChunks decode y sp chunks = parse_chunk decode y sp chunks.flatten := by
  intro chunks
  induction chunks with
  | nil =>
    intro sp h
    have h1 : parse_chunk decode y sp [].flatten = drainBuffer decode y sp := by
      unfold parse_chunk
      rw [show ({ sp with buffer := sp.buffer ++ ([] : List JStr).flatten } : SPState) = sp by
        simp]
    rw [h1]
    unfold drainBuffer
    rw [drainGo_no_nl decode y sp.buffer.length sp h]
    rfl
  | cons c cs ih =>
    intro sp h
    rw [runChunks_cons]
    have hb1 : '\n' ∉ (parse_chunk decode y sp c).1.buffer := by
      rw [parse_chunk_spec]
      exact lastLine_no_nl _
    rw [ih _ hb1]
    rw [show (c :: cs).flatten = c ++ cs.flatten from rfl, parse_chunk_append]

theorem dropLast_append_getLastD {α : Type} (l : List α) (h : l ≠ []) (d : α) :
    l.dropLast ++ [l.getLastD d] = l := by
  rw [List.getLastD_eq_getLast?, List.getLast?_eq_getLast l h]
  exact List.dropLast_concat_getLast h

theorem dispatchLines_eq_parseLines (decode : JStr → Option Json) :
    ∀ (lines : List JStr) (p : ParserState),
      dispatchLines decode false p lines
        = ((parseLines decode p lines).1, (parseLines decode p lines).2.map StreamItem.ev) := by
  intro lines
  induction lines with
  | nil => intro p; rfl
  | cons l ls ih =>
    intro p
    rw [dispatchLines_cons, dispatchLine_spec, parseLines_cons, ih]
    rw [List.map_append]
    congr 1
    cases (parse_line decode p l).2 <;> rfl

theorem parse_line_nil (decode : JStr → Option Json) (st : ParserState) :
    parse_line decode st [] = (st, none) := rfl

theorem parseLines_trim_front (decode : JStr → Option Json) :
    ∀ (S : JStr) (p : ParserState),
      parseLines decode p (splitOnNl (S.dropWhile Char.isWhitespace))
        = parseLines decode p (splitOnNl S) := by
  intro S
  induction S with
  | nil => intro p; rfl
  | cons c S' ih =>
    intro p
    by_cases hw : Char.isWhitespace c = true
    · rw [show (c :: S').dropWhile Char.isWhitespace = S'.dropWhile Char.isWhitespace from by
        rw [List.dropWhile_cons, if_pos hw]]
      rw [ih]
      by_cases hc : c = '\n'
      · subst hc
        rw [show splitOnNl ('\n' :: S') = [] :: splitOnNl S' from rfl,
          parseLines_cons, parse_line_nil]
        simp
      · rcases hs : splitOnNl S' with _ | ⟨h0, t0⟩
        · exact absurd hs (splitOnNl_ne_nil S')
        rw [splitOnNl_cons_of_ne hc S' hs]
        rw [parseLines_cons, parseLines_cons]
        rw [show parse_line decode p (c :: h0) = parse_line decode p h0 from
          parse_line_trim_congr decode p (show trimChars (c :: h0) = trimChars h0 from by
            unfold trimChars
            rw [List.dropWhile_cons, if_pos hw])]
    · rw [show (c :: S').dropWhile Char.isWhitespace = c :: S' from by
        rw [List.dropWhile_cons, if_neg hw]]

theorem trimChars_snoc_ws (l : JStr) (c : Char) (hw : Char.isWhitespace c = true) :
    trimChars (l ++ [c]) = trimChars l := by
  unfold trimChars
  rw [List.dropWhile_append]
  by_cases he : (l.dropWhile Char.isWhitespace).isEmpty = true
  · rw [if_pos he]
    rw [List.isEmpty_iff.mp he]
    rw [show ([c] : JStr).dropWhile Char.isWhitespace = [] from by
      rw [show ([c] : JStr) = c :: [] from rfl, List.dropWhile_cons, if_pos hw]
      rfl]
  · rw [if_neg he]
    rw [List.reverse_append]
    rw [show ([c] : JStr).reverse = [c] from rfl]
    rw [show ([c] : JStr) ++ (l.dropWhile Char.isWhitespace).reverse
        = c :: (l.dropWhile Char.isWhitespace).reverse from rfl]
    rw [List.dropWhile_cons, if_pos hw]

theorem splitOnNl_snoc_nl (S : JStr) : splitOnNl (S ++ ['\n']) = splitOnNl S ++ [[]] := by
  rw [splitOnNl_append_eq]
  rw [show (['\n'] : JStr) = '\n' :: [] from rfl,
    splitOnNl_append_nl_cons (lastLine S) [] (lastLine_no_nl S)]
  rw [show splitOnNl ([] : JStr) = [[]] from rfl]
  rw [show lastLine S :: [[]] = [lastLine S] ++ [[]] from rfl, ← List.append_assoc]
  rw [show (splitOnNl S).dropLast ++ [lastLine S] = splitOnNl S from
    dropLast_append_getLastD (splitOnNl S) (splitOnNl_ne_nil S) []]

theorem splitOnNl_snoc_other (S : JStr) (c : Char) (hc : ¬(c = '\n')) :
    splitOnNl (S ++ [c]) = (splitOnNl S).dropLast ++ [lastLine S ++ [c]] := by
  rw [splitOnNl_append_eq]
  rw [splitOnNl_no_nl (s := lastLine S ++ [c]) (by
    intro hm
    rcases List.mem_append.mp hm with h | h
    · exact lastLine_no_nl S h
    · simp at h
      exact hc h.symm)]

theorem parseLines_snoc_back (decode : JStr → Option Json) (S : JStr) (c : Char)
    (p : ParserState) (hw : Char.isWhitespace c = true) :
    parseLines decode p (splitOnNl (S ++ [c])) = parseLines decode p (splitOnNl S) := by
  by_cases hc : c = '\n'
  · subst hc
    rw [splitOnNl_snoc_nl, parseLines_append]
    rw [show ∀ q, parseLines decode q [([] : JStr)] = (q, []) from fun q => rfl]
    simp
  · rw [splitOnNl_snoc_other S c hc]
    conv_rhs => rw [← dropLast_append_getLastD (splitOnNl S) (splitOnNl_ne_nil S) []]
    rw [parseLines_append, parseLines_append]
    have hpl : ∀ q, parse_line decode q (lastLine S ++ [c]) = parse_line decode q (lastLine S) :=
      fun q => parse_line_trim_congr decode q (trimChars_snoc_ws _ _ hw)
    simp only [parseLines_cons, hpl]
    rfl

theorem parseLines_back_all (decode : JStr → Option Json) :
    ∀ (t : JStr), (∀ x ∈ t, Char.isWhitespace x = true) → ∀ (S : JStr) (p : ParserState),
      parseLines decode p (splitOnNl (S ++ t)) = parseLines decode p (splitOnNl S) := by
  intro t
  induction t with
  | nil => intro _ S p; rw [List.append_nil]
  | cons c t' ih =>
    intro hws S p
    rw [show S ++ c :: t' = (S ++ [c]) ++ t' from by simp]
    rw [ih (fun x hx => hws x (List.mem_cons_of_mem _ hx)) (S ++ [c]) p]
    exact parseLines_snoc_back decode S c p (hws c (List.mem_cons_self _ _))

theorem parseLines_trim (decode : JStr → Option Json) (S : JStr) (p : ParserState) :
    parseLines decode p (splitOnNl (trimChars S)) = parseLines decode p (splitOnNl S) := by
  have hdecomp : S.dropWhile Char.isWhitespace
      = trimChars S
        ++ ((S.dropWhile Char.isWhitespace).reverse.takeWhile Char.isWhitespace).reverse := by
    conv_lhs => rw [← List.reverse_reverse (S.dropWhile Char.isWhitespace)]
    conv_lhs => rw [← List.takeWhile_append_dropWhile
      (p := Char.isWhitespace) (l := (S.dropWhile Char.isWhitespace).reverse)]
    rw [List.reverse_append]
    rfl
  have hsuffix : ∀ x ∈ ((S.dropWhile Char.isWhitespace).reverse.takeWhile
      Char.isWhitespace).reverse, Char.isWhitespace x = true := by
    intro x hx
    exact List.mem_takeWhile_imp (List.mem_reverse.mp hx)
  calc parseLines decode p (splitOnNl (trimChars S))
      = parseLines decode p (splitOnNl (trimChars S
          ++ ((S.dropWhile Char.isWhitespace).reverse.takeWhile Char.isWhitespace).reverse)) :=
        (parseLines_back_all decode _ hsuffix (trimChars S) p).symm
    _ = parseLines decode p (splitOnNl (S.dropWhile Char.isWhitespace)) := by rw [← hdecomp]
    _ = parseLines decode p (splitOnNl S) := parseLines_trim_front decode S p

theorem runStreaming_eq (decode : JStr → Option Json) (y : Bool) (chunks : List JStr) :
    runStreaming decode y chunks
      = ((flush decode y (runChunks decode y ⟨[], initState⟩ chunks).1).1,
         (runChunks decode y ⟨[], initState⟩ chunks).2
           ++ (flush decode y (runChunks decode y ⟨[], initState⟩ chunks).1).2) := rfl

theorem flush_eq (decode : JStr → Option Json) (y : Bool) (sp : SPState) :
    flush decode y sp
      = (⟨[], (dispatchLine decode y sp.parser (trimChars sp.buffer)).1⟩,
         (dispatchLine decode y sp.parser (trimChars sp.buffer)).2) := rfl

/-- C1: chunk-boundary invariance.  For every decode oracle and every way of
splitting a stream into chunks (at arbitrary character offsets, including
mid-line and one character per chunk), feeding the chunks through
`parse_chunk` followed by one `flush` yields exactly the ordered sequence of
classified events that `parse_stream` produces by parsing the reassembled
stream line by line. -/
theorem c1_chunk_boundary_invariance (decode : JStr → Option Json) (chunks : List JStr) :
    (runStreaming decode false chunks).2
      = (parse_stream_events decode chunks.flatten).map StreamItem.ev := by
  rw [runStreaming_eq]
  rw [runChunks_join decode false chunks ⟨[], initState⟩ (by simp)]
  rw [parse_chunk_spec]
  dsimp only
  rw [flush_eq]
  dsimp only
  rw [List.nil_append]
  have hmerge : (dispatchLines decode false initState (splitOnNl chunks.flatten).dropLast).2
      ++ (dispatchLine decode false
           (dispatchLines decode false initState (splitOnNl chunks.flatten).dropLast).1
           (trimChars (lastLine chunks.flatten))).2
      = (dispatchLines decode false initState
          ((splitOnNl chunks.flatten).dropLast ++ [lastLine chunks.flatten])).2 := by
    rw [dispatchLines_append]
    congr 1
    rw [dispatchLines_cons]
    simp [dispatchLines]
  rw [hmerge]
  rw [show (splitOnNl chunks.flatten).dropLast ++ [lastLine chunks.flatten]
      = splitOnNl chunks.flatten from
    dropLast_append_getLastD (splitOnNl chunks.flatten) (splitOnNl_ne_nil _) []]
  rw [dispatchLines_eq_parseLines]
  rw [show parse_stream_events decode chunks.flatten
      = (parseLines decode initState (splitOnNl chunks.flatten)).2 from by
    unfold parse_stream_events
    rw [parseLines_trim]]

end SimpleClaude
